import Mathlib

/-!
A shallow embedding of `rustysynth/src/midifile_sequencer.rs`.

The sequencer source is translated definition by definition.  The two
collaborators that the sequencer uses — the `MidiFile` event list and the
`Synthesizer` — are not part of the analysed source tree, so they are
modelled from the specification: the synthesizer is instrumented as a
trace machine whose state records every call the sequencer makes into it
(`reset`, `process_midi_message`, `note_off_all`) together with one
`frame` entry per rendered audio frame.  Two interaction histories are
equal exactly when the sequencer drove the synthesizer identically, so
equality of logs stands for equality of produced samples for every
deterministic synthesizer implementation.

Floating point (`f64`) time and speed are embedded as exact rationals.
Rust panics and slice-bound violations are embedded as `Except` errors;
the unbounded `while` loop of `process_events` takes explicit fuel
(`Err.fuel` marks exhaustion, which corresponds to a non-terminating or
long-running loop in the source, not to a panic).
-/

namespace RustySynth

/-- Modelled from the spec: the message variants of `midifile.rs` (not in
the analysed tree).  `normal` is a channel voice/control event carrying the
raw status byte and two data bytes; `loopStart` / `loopEnd` are the loop
markers; `other` stands for every remaining variant, which the sequencer
consumes without effect. -/
inductive Message where
  | normal (status data1 data2 : Nat)
  | loopStart
  | loopEnd
  | other
deriving DecidableEq

/-- Modelled from the spec: a parsed MIDI file is an ordered collection of
messages paired 1:1 with absolute times in seconds (non-decreasing by
index).  The pairing invariant (`times.length = messages.length`) is kept
as a hypothesis of the theorems that need it rather than a structure
field. -/
structure MidiFile where
  messages : List Message
  times : List ℚ
deriving DecidableEq

/-- One entry of the synthesizer interaction trace: a control call made by
the sequencer, or one rendered audio frame. -/
inductive SynthOp where
  | reset
  | midi (channel command data1 data2 : Int)
  | noteOffAll (force : Bool)
  | frame
deriving DecidableEq

/-- Modelled from the spec: the renderer collaborator of §4.2, instrumented
as a trace machine.  `block_size` and `sample_rate` are its fixed
properties; `log` records the interaction history, most recent entry
first. -/
structure Synthesizer where
  block_size : Nat
  sample_rate : Nat
  log : List SynthOp
deriving DecidableEq

/-- Modelled from the spec: `reset()` silences all voices; in the trace
model it records a `reset` entry. -/
def Synthesizer.reset (s : Synthesizer) : Synthesizer :=
  { s with log := SynthOp.reset :: s.log }

/-- Modelled from the spec: `process_midi_message` applies one channel
event; recorded in the trace. -/
def Synthesizer.process_midi_message (s : Synthesizer)
    (channel command data1 data2 : Int) : Synthesizer :=
  { s with log := SynthOp.midi channel command data1 data2 :: s.log }

/-- Modelled from the spec: `note_off_all` releases (`force = false`) or
silences (`force = true`) all voices; recorded in the trace. -/
def Synthesizer.note_off_all (s : Synthesizer) (force : Bool) : Synthesizer :=
  { s with log := SynthOp.noteOffAll force :: s.log }

/-- Modelled from the spec: the renderer produces `n` audio frames; each
frame is one `frame` entry of the trace, so the sample content of a frame
is determined by the history below it. -/
def Synthesizer.render (s : Synthesizer) (n : Nat) : Synthesizer :=
  { s with log := List.replicate n SynthOp.frame ++ s.log }

/-- The sequencer state, translated field by field from
`MidiFileSequencer` in `midifile_sequencer.rs`. -/
structure MidiFileSequencer where
  synthesizer : Synthesizer
  speed : ℚ
  midi_file : Option MidiFile
  play_loop : Bool
  block_wrote : Nat
  current_time : ℚ
  msg_index : Nat
  loop_index : Nat
deriving DecidableEq

/-- Translation of `MidiFileSequencer::new`. -/
def MidiFileSequencer.new (synthesizer : Synthesizer) : MidiFileSequencer :=
  { synthesizer := synthesizer
    speed := 1
    midi_file := none
    play_loop := false
    block_wrote := 0
    current_time := 0
    msg_index := 0
    loop_index := 0 }

/-- Translation of `MidiFileSequencer::play`. -/
def MidiFileSequencer.play (s : MidiFileSequencer) (midi_file : MidiFile)
    (play_loop : Bool) : MidiFileSequencer :=
  { s with
    midi_file := some midi_file
    play_loop := play_loop
    block_wrote := s.synthesizer.block_size
    current_time := 0
    msg_index := 0
    loop_index := 0
    synthesizer := s.synthesizer.reset }

/-- Translation of `MidiFileSequencer::stop`. -/
def MidiFileSequencer.stop (s : MidiFileSequencer) : MidiFileSequencer :=
  { s with midi_file := none, synthesizer := s.synthesizer.reset }

/-- Translation of `MidiFileSequencer::get_position`. -/
def MidiFileSequencer.get_position (s : MidiFileSequencer) : ℚ :=
  s.current_time

/-- Translation of `MidiFileSequencer::end_of_sequence`. -/
def MidiFileSequencer.end_of_sequence (s : MidiFileSequencer) : Bool :=
  match s.midi_file with
  | none => true
  | some mf => s.msg_index == mf.messages.length

/-- Translation of `MidiFileSequencer::get_speed`. -/
def MidiFileSequencer.get_speed (s : MidiFileSequencer) : ℚ :=
  s.speed

/-- Error outcomes of the embedded operations.  `mismatch` and
`negativeSpeed` are the two source panics; `oob` is a slice access out of
bounds; `fuel` and `stuck` are model artifacts marking, respectively,
exhaustion of the event-loop fuel and a zero-progress render iteration
(both correspond to non-termination of the source loop, never to normal
completion). -/
inductive Err where
  | mismatch
  | negativeSpeed
  | oob
  | fuel
  | stuck
deriving DecidableEq

/-- Translation of `MidiFileSequencer::set_speed`; the `value < 0` panic
becomes `Err.negativeSpeed`. -/
def MidiFileSequencer.set_speed (s : MidiFileSequencer) (value : ℚ) :
    Except Err MidiFileSequencer :=
  if value < 0 then .error .negativeSpeed
  else .ok { s with speed := value }

/-- Outcome of one iteration of the `while` loop in `process_events`:
continue scanning from a new state, leave the loop, or panic. -/
inductive StepRes where
  | cont (s : MidiFileSequencer)
  | halt
  | err (e : Err)
deriving DecidableEq

/-- One iteration of the `while self.msg_index < midi_file.messages.len()`
loop of `process_events`, translated from the source.  The `msg_index += 1`
that the source runs after the `match` is folded into each arm; in the
`LoopEnd` arm it lands on the freshly assigned `loop_index`, giving
`loop_index + 1`. -/
def eventStep (mf : MidiFile) (s : MidiFileSequencer) : StepRes :=
  if h : s.msg_index < mf.messages.length then
    match mf.times.get? s.msg_index with
    | none => .err .oob
    | some time =>
      if time ≤ s.current_time then
        match mf.messages.get ⟨s.msg_index, h⟩ with
        | .normal status data1 data2 =>
            .cont { s with
              synthesizer := s.synthesizer.process_midi_message
                (Int.ofNat (status &&& 15)) (Int.ofNat (status &&& 240))
                (Int.ofNat data1) (Int.ofNat data2)
              msg_index := s.msg_index + 1 }
        | .loopStart =>
            if s.play_loop then
              .cont { s with loop_index := s.msg_index, msg_index := s.msg_index + 1 }
            else
              .cont { s with msg_index := s.msg_index + 1 }
        | .loopEnd =>
            if s.play_loop then
              match mf.times.get? s.loop_index with
              | none => .err .oob
              | some anchorTime =>
                  .cont { s with
                    current_time := anchorTime
                    msg_index := s.loop_index + 1
                    synthesizer := s.synthesizer.note_off_all false }
            else
              .cont { s with msg_index := s.msg_index + 1 }
        | .other =>
            .cont { s with msg_index := s.msg_index + 1 }
      else .halt
  else .halt

/-- The event-scan loop of `process_events`, with explicit fuel for the
(genuinely unbounded) `while` loop. -/
def processEventsLoop (mf : MidiFile) : Nat → MidiFileSequencer → Except Err MidiFileSequencer
  | 0, _ => .error .fuel
  | fuel + 1, s =>
    match eventStep mf s with
    | .cont s1 => processEventsLoop mf fuel s1
    | .halt => .ok s
    | .err e => .error e

/-- Translation of `MidiFileSequencer::process_events`: early return when no
file is bound, the scan loop, then the implicit end-of-sequence wraparound
when looping is enabled. -/
def process_events (fuel : Nat) (s : MidiFileSequencer) : Except Err MidiFileSequencer :=
  match s.midi_file with
  | none => .ok s
  | some mf =>
    match processEventsLoop mf fuel s with
    | .error e => .error e
    | .ok s1 =>
      if s1.msg_index = mf.messages.length ∧ s1.play_loop = true then
        match mf.times.get? s1.loop_index with
        | none => .error .oob
        | some anchorTime =>
            .ok { s1 with
              current_time := anchorTime
              msg_index := s1.loop_index
              synthesizer := s1.synthesizer.note_off_all false }
      else .ok s1

/-- The state change at a block boundary inside `render`: after
`process_events`, `block_wrote` is cleared and the position advances by
`speed * block_size / sample_rate` seconds. -/
def advanceBlock (s : MidiFileSequencer) : MidiFileSequencer :=
  { s with
    block_wrote := 0
    current_time := s.current_time +
      s.speed * (s.synthesizer.block_size : ℚ) / (s.synthesizer.sample_rate : ℚ) }

/-- The tail of one render-loop iteration: the synthesizer renders `rem`
frames and `block_wrote` and `wrote` advance by `rem`. -/
def writeFrames (s : MidiFileSequencer) (rem : Nat) : MidiFileSequencer :=
  { s with synthesizer := s.synthesizer.render rem, block_wrote := s.block_wrote + rem }

/-- The `while wrote < left_length` loop of `MidiFileSequencer::render`.
`remaining` is `left_length - wrote`.  `gas` bounds the number of loop
iterations; every productive iteration writes at least one frame, so
`gas := remaining` always suffices (`renderLoop_gas_irrelevant`), and a
zero-progress iteration (only possible with `block_size = 0`, where the
source loops forever) is reported as `Err.stuck`. -/
def renderLoop (fuel : Nat) : Nat → Nat → MidiFileSequencer → Except Err MidiFileSequencer
  | 0, remaining, s => if remaining = 0 then .ok s else .error .stuck
  | gas + 1, remaining, s =>
    if remaining = 0 then .ok s
    else
      match
        (if s.block_wrote = s.synthesizer.block_size then
          match process_events fuel s with
          | .error e => .error e
          | .ok s1 => .ok (advanceBlock s1)
        else .ok s : Except Err MidiFileSequencer)
      with
      | .error e => .error e
      | .ok s1 =>
        if min (s1.synthesizer.block_size - s1.block_wrote) remaining = 0 then .error .stuck
        else
          renderLoop fuel gas
            (remaining - min (s1.synthesizer.block_size - s1.block_wrote) remaining)
            (writeFrames s1 (min (s1.synthesizer.block_size - s1.block_wrote) remaining))

/-- Translation of `MidiFileSequencer::render`, abstracted over the two
buffer lengths; the length-mismatch panic becomes `Err.mismatch`. -/
def render (fuel : Nat) (s : MidiFileSequencer) (left_len right_len : Nat) :
    Except Err MidiFileSequencer :=
  if left_len = right_len then renderLoop fuel left_len left_len s
  else .error .mismatch

/-- The sample content of the rendered frames, recovered from the trace:
each frame is identified with the interaction history up to and including
it, which determines its audio content for any deterministic synthesizer. -/
def outputFrames : List SynthOp → List (List SynthOp)
  | [] => []
  | op :: rest =>
      if op = SynthOp.frame then (op :: rest) :: outputFrames rest
      else outputFrames rest

/-- A sequence of `render` calls with the given buffer lengths. -/
def renderChunks (fuel : Nat) (lens : List Nat) (s : MidiFileSequencer) :
    Except Err MidiFileSequencer :=
  match lens with
  | [] => .ok s
  | n :: rest =>
    match render fuel s n n with
    | .error e => .error e
    | .ok s1 => renderChunks fuel rest s1

/-- States reachable, starting from `play mf true`, through further `play`
of the same file with looping, successful `render` calls and successful
`set_speed` calls — the "bound with looping enabled" sessions of the
specification. -/
inductive LoopReach (mf : MidiFile) : MidiFileSequencer → Prop
  | start (s : MidiFileSequencer) : LoopReach mf (s.play mf true)
  | renderStep (s s' : MidiFileSequencer) (fuel n m : Nat) :
      LoopReach mf s → render fuel s n m = .ok s' → LoopReach mf s'
  | speedStep (s s' : MidiFileSequencer) (v : ℚ) :
      LoopReach mf s → s.set_speed v = .ok s' → LoopReach mf s'

/-- Number of rendered audio frames recorded in a trace. -/
def countFrames : List SynthOp → Nat
  | [] => 0
  | SynthOp.frame :: rest => countFrames rest + 1
  | _ :: rest => countFrames rest

/-- Number of channel events forwarded to the synthesizer in a trace. -/
def countMidi : List SynthOp → Nat
  | [] => 0
  | SynthOp.midi _ _ _ _ :: rest => countMidi rest + 1
  | _ :: rest => countMidi rest

/-- Number of `note_off_all` calls (loop wraparounds release notes this
way) recorded in a trace. -/
def countNoteOff : List SynthOp → Nat
  | [] => 0
  | SynthOp.noteOffAll _ :: rest => countNoteOff rest + 1
  | _ :: rest => countNoteOff rest

instance {ε α : Type} [DecidableEq ε] [DecidableEq α] : DecidableEq (Except ε α) := fun x y =>
  match x, y with
  | .ok a, .ok b =>
      if h : a = b then .isTrue (by rw [h]) else .isFalse (fun hc => by cases hc; exact h rfl)
  | .error a, .error b =>
      if h : a = b then .isTrue (by rw [h]) else .isFalse (fun hc => by cases hc; exact h rfl)
  | .ok _, .error _ => .isFalse (fun hc => by cases hc)
  | .error _, .ok _ => .isFalse (fun hc => by cases hc)

/-- Everything one continuing iteration of the event-scan loop can do:
the static fields are untouched, no frame is rendered, the indices move as
in the source, and with looping disabled neither `current_time` nor
`loop_index` changes. -/
theorem eventStep_cont (mf : MidiFile) (s s1 : MidiFileSequencer)
    (h : eventStep mf s = .cont s1) :
    s.msg_index < mf.messages.length ∧
    s1.speed = s.speed ∧ s1.play_loop = s.play_loop ∧ s1.midi_file = s.midi_file ∧
    s1.block_wrote = s.block_wrote ∧
    s1.synthesizer.block_size = s.synthesizer.block_size ∧
    s1.synthesizer.sample_rate = s.synthesizer.sample_rate ∧
    (s1.msg_index = s.msg_index + 1 ∨ s1.msg_index = s.loop_index + 1) ∧
    (s1.loop_index = s.loop_index ∨ s1.loop_index = s.msg_index) ∧
    countFrames s1.synthesizer.log = countFrames s.synthesizer.log ∧
    (s.play_loop = false → s1.current_time = s.current_time ∧ s1.loop_index = s.loop_index) ∧
    (Message.loopStart ∉ mf.messages → s1.loop_index = s.loop_index) := by
  unfold eventStep at h
  split at h
  case isTrue hlt =>
    have hmem := List.get_mem mf.messages s.msg_index hlt
    split at h
    next => exact absurd h (by simp)
    next time hg =>
      split at h
      next hle =>
        split at h
        next status d1 d2 hm =>
          cases h
          refine ⟨hlt, rfl, rfl, rfl, rfl, rfl, rfl, Or.inl rfl, Or.inl rfl, ?_,
            fun _ => ⟨rfl, rfl⟩, fun _ => rfl⟩
          simp [Synthesizer.process_midi_message, countFrames]
        next hm =>
          rw [hm] at hmem
          split at h
          next hpl =>
            cases h
            refine ⟨hlt, rfl, rfl, rfl, rfl, rfl, rfl, Or.inl rfl, Or.inr rfl, rfl, ?_, ?_⟩
            · intro hf; rw [hf] at hpl; exact absurd hpl (by simp)
            · intro hns; exact absurd hmem hns
          next hpl =>
            cases h
            exact ⟨hlt, rfl, rfl, rfl, rfl, rfl, rfl, Or.inl rfl, Or.inl rfl, rfl,
              fun _ => ⟨rfl, rfl⟩, fun _ => rfl⟩
        next hm =>
          split at h
          next hpl =>
            split at h
            next => exact absurd h (by simp)
            next t0 hg0 =>
              cases h
              refine ⟨hlt, rfl, rfl, rfl, rfl, rfl, rfl, Or.inr rfl, Or.inl rfl, ?_, ?_,
                fun _ => rfl⟩
              · simp [Synthesizer.note_off_all, countFrames]
              · intro hf; rw [hf] at hpl; exact absurd hpl (by simp)
          next hpl =>
            cases h
            exact ⟨hlt, rfl, rfl, rfl, rfl, rfl, rfl, Or.inl rfl, Or.inl rfl, rfl,
              fun _ => ⟨rfl, rfl⟩, fun _ => rfl⟩
        next hm =>
          cases h
          exact ⟨hlt, rfl, rfl, rfl, rfl, rfl, rfl, Or.inl rfl, Or.inl rfl, rfl,
            fun _ => ⟨rfl, rfl⟩, fun _ => rfl⟩
      next => exact absurd h (by simp)
  case isFalse => exact absurd h (by simp)

/-- The only panic one scan iteration can raise is an out-of-bounds
access. -/
theorem eventStep_err (mf : MidiFile) (s : MidiFileSequencer) (e : Err)
    (h : eventStep mf s = .err e) : e = .oob := by
  unfold eventStep at h
  split at h
  · split at h
    next => cases h; rfl
    next time hg =>
      split at h
      next =>
        split at h
        next status d1 d2 hm => cases h
        next hm => split at h <;> cases h
        next hm =>
          split at h
          next =>
            split at h
            next => cases h; rfl
            next t0 hg0 => cases h
          next => cases h
        next hm => cases h
      next => cases h
  · cases h

/-- When the times list is as long as the messages list and the loop anchor
is in bounds, one scan iteration cannot panic: both slice reads it makes
are in bounds. -/
theorem eventStep_no_oob (mf : MidiFile) (s : MidiFileSequencer)
    (hlen : mf.times.length = mf.messages.length)
    (hloop : s.loop_index < mf.messages.length) (e : Err) :
    eventStep mf s ≠ .err e := by
  intro h
  unfold eventStep at h
  split at h
  case isTrue hlt =>
    split at h
    next hg =>
      have := List.get?_eq_none.mp hg
      omega
    next time hg =>
      split at h
      next =>
        split at h
        next status d1 d2 hm => cases h
        next hm => split at h <;> cases h
        next hm =>
          split at h
          next =>
            split at h
            next hg0 =>
              have := List.get?_eq_none.mp hg0
              omega
            next t0 hg0 => cases h
          next => cases h
        next hm => cases h
      next => cases h
  case isFalse => cases h

/-- What a whole successful run of the event-scan loop preserves: the
static fields, the frame count of the trace, the index bounds, the
position when looping is disabled, and the anchor when the file has no
`LoopStart` marker. -/
theorem processEventsLoop_ok (mf : MidiFile) (fuel : Nat) (s s' : MidiFileSequencer)
    (h : processEventsLoop mf fuel s = .ok s') :
    s'.speed = s.speed ∧ s'.play_loop = s.play_loop ∧ s'.midi_file = s.midi_file ∧
    s'.block_wrote = s.block_wrote ∧
    s'.synthesizer.block_size = s.synthesizer.block_size ∧
    s'.synthesizer.sample_rate = s.synthesizer.sample_rate ∧
    countFrames s'.synthesizer.log = countFrames s.synthesizer.log ∧
    (s.msg_index ≤ mf.messages.length ∧ s.loop_index < mf.messages.length →
      s'.msg_index ≤ mf.messages.length ∧ s'.loop_index < mf.messages.length) ∧
    (s.play_loop = false → s'.current_time = s.current_time ∧ s'.loop_index = s.loop_index) ∧
    (Message.loopStart ∉ mf.messages → s'.loop_index = s.loop_index) := by
  induction fuel generalizing s with
  | zero => exact absurd h (by simp [processEventsLoop])
  | succ fuel ih =>
    unfold processEventsLoop at h
    split at h
    next s1 hstep =>
      obtain ⟨hlt, hsp, hpl, hmf, hbw, hbs, hsr, hmsg, hloopi, hcf, htime, hns⟩ :=
        eventStep_cont mf s s1 hstep
      obtain ⟨ih1, ih2, ih3, ih4, ih5, ih6, ih7, ih8, ih9, ih10⟩ := ih s1 h
      refine ⟨ih1.trans hsp, ih2.trans hpl, ih3.trans hmf, ih4.trans hbw, ih5.trans hbs,
        ih6.trans hsr, ih7.trans hcf, ?_, ?_, ?_⟩
      · rintro ⟨hm, hl⟩
        apply ih8
        constructor
        · rcases hmsg with h1 | h1 <;> omega
        · rcases hloopi with h1 | h1 <;> omega
      · intro hplf
        have h1 := htime hplf
        have h2 := ih9 (hpl.trans hplf)
        exact ⟨h2.1.trans h1.1, h2.2.trans h1.2⟩
      · intro hns'
        exact (ih10 hns').trans (hns hns')
    next hstep =>
      cases h
      exact ⟨rfl, rfl, rfl, rfl, rfl, rfl, rfl, id, fun _ => ⟨rfl, rfl⟩, fun _ => rfl⟩
    next e hstep => cases h

/-- The event-scan loop fails only by an out-of-bounds access or by fuel
exhaustion, never with the panic markers of `render` or `set_speed`. -/
theorem processEventsLoop_err (mf : MidiFile) (fuel : Nat) (s : MidiFileSequencer) (e : Err)
    (h : processEventsLoop mf fuel s = .error e) : e = .oob ∨ e = .fuel := by
  induction fuel generalizing s with
  | zero =>
    unfold processEventsLoop at h
    cases h
    exact Or.inr rfl
  | succ fuel ih =>
    unfold processEventsLoop at h
    split at h
    next s1 hstep => exact ih s1 h
    next hstep => cases h
    next e' hstep =>
      cases h
      exact Or.inl (eventStep_err mf s _ hstep)

/-- Under the 1:1 pairing invariant and an in-bounds anchor, the scan loop
never reports an out-of-bounds access. -/
theorem processEventsLoop_no_oob (mf : MidiFile) (fuel : Nat) (s : MidiFileSequencer)
    (hlen : mf.times.length = mf.messages.length)
    (hm : s.msg_index ≤ mf.messages.length) (hl : s.loop_index < mf.messages.length) :
    processEventsLoop mf fuel s ≠ .error .oob := by
  induction fuel generalizing s with
  | zero =>
    unfold processEventsLoop
    intro h
    cases h
  | succ fuel ih =>
    unfold processEventsLoop
    split
    next s1 hstep =>
      obtain ⟨hlt, _, _, _, _, _, _, hmsg, hloopi, _, _, _⟩ := eventStep_cont mf s s1 hstep
      apply ih s1
      · rcases hmsg with h1 | h1 <;> omega
      · rcases hloopi with h1 | h1 <;> omega
    next hstep => intro h; cases h
    next e' hstep => exact absurd hstep (eventStep_no_oob mf s hlen hl e')

/-- `process_events` with no file bound is the identity (the early
`return`). -/
theorem process_events_none (fuel : Nat) (s : MidiFileSequencer)
    (hmf : s.midi_file = none) : process_events fuel s = .ok s := by
  unfold process_events
  rw [hmf]

/-- What a whole successful `process_events` call preserves: static fields,
the frame count, and — when looping is disabled — the position. -/
theorem process_events_ok (fuel : Nat) (s s' : MidiFileSequencer)
    (h : process_events fuel s = .ok s') :
    s'.speed = s.speed ∧ s'.play_loop = s.play_loop ∧ s'.midi_file = s.midi_file ∧
    s'.block_wrote = s.block_wrote ∧
    s'.synthesizer.block_size = s.synthesizer.block_size ∧
    s'.synthesizer.sample_rate = s.synthesizer.sample_rate ∧
    countFrames s'.synthesizer.log = countFrames s.synthesizer.log ∧
    (s.play_loop = false → s'.current_time = s.current_time) := by
  unfold process_events at h
  split at h
  next hmf =>
    cases h
    exact ⟨rfl, rfl, rfl, rfl, rfl, rfl, rfl, fun _ => rfl⟩
  next mf hmf =>
    split at h
    next e hpel => cases h
    next s1 hpel =>
      obtain ⟨p1, p2, p3, p4, p5, p6, p7, _, p9, _⟩ := processEventsLoop_ok mf fuel s s1 hpel
      split at h
      next hcond =>
        split at h
        next => cases h
        next t0 hg0 =>
          cases h
          refine ⟨p1, p2, p3, p4, p5, p6, p7, ?_⟩
          intro hplf
          exact absurd (p2.trans hplf) (by rw [hcond.2]; simp)
      next hcond =>
        cases h
        exact ⟨p1, p2, p3, p4, p5, p6, p7, fun hplf => (p9 hplf).1⟩

/-- With looping enabled, a bound file, and in-bounds indices, a successful
`process_events` leaves `msg_index` strictly below the sequence length:
the terminal state is unreachable. -/
theorem process_events_indices (fuel : Nat) (s s' : MidiFileSequencer) (mf : MidiFile)
    (hmf : s.midi_file = some mf) (hpl : s.play_loop = true)
    (hm : s.msg_index ≤ mf.messages.length) (hl : s.loop_index < mf.messages.length)
    (h : process_events fuel s = .ok s') :
    s'.msg_index < mf.messages.length ∧ s'.loop_index < mf.messages.length := by
  unfold process_events at h
  split at h
  next hmf' => rw [hmf'] at hmf; cases hmf
  next mf' hmf' =>
    rw [hmf'] at hmf
    cases hmf
    split at h
    next e hpel => cases h
    next s1 hpel =>
      obtain ⟨_, p2, _, _, _, _, _, p8, _, _⟩ := processEventsLoop_ok mf fuel s s1 hpel
      obtain ⟨q1, q2⟩ := p8 ⟨hm, hl⟩
      split at h
      next hcond =>
        split at h
        next => cases h
        next t0 hg0 =>
          cases h
          exact ⟨q2, q2⟩
      next hcond =>
        injection h with h2
        rw [← h2]
        refine ⟨?_, q2⟩
        rcases Nat.lt_or_ge s1.msg_index mf.messages.length with h1 | h1
        · exact h1
        · exact absurd ⟨Nat.le_antisymm q1 h1, p2.trans hpl⟩ hcond

/-- `process_events` fails only by out-of-bounds access or fuel
exhaustion. -/
theorem process_events_err (fuel : Nat) (s : MidiFileSequencer) (e : Err)
    (h : process_events fuel s = .error e) : e = .oob ∨ e = .fuel := by
  unfold process_events at h
  split at h
  next hmf => cases h
  next mf hmf =>
    split at h
    next e' hpel =>
      cases h
      exact processEventsLoop_err mf fuel s _ hpel
    next s1 hpel =>
      split at h
      next hcond =>
        split at h
        next => cases h; exact Or.inl rfl
        next t0 hg0 => cases h
      next hcond => cases h

/-- Under the 1:1 pairing invariant and in-bounds indices, `process_events`
never reports an out-of-bounds access (its only possible failure is the
fuel artifact). -/
theorem process_events_no_oob (fuel : Nat) (s : MidiFileSequencer) (mf : MidiFile)
    (hmf : s.midi_file = some mf)
    (hlen : mf.times.length = mf.messages.length)
    (hm : s.msg_index ≤ mf.messages.length) (hl : s.loop_index < mf.messages.length) :
    process_events fuel s ≠ .error .oob := by
  intro h
  unfold process_events at h
  split at h
  next hmf' => cases h
  next mf' hmf' =>
    rw [hmf'] at hmf
    cases hmf
    split at h
    next e' hpel =>
      cases h
      exact processEventsLoop_no_oob mf fuel s hlen hm hl hpel
    next s1 hpel =>
      obtain ⟨_, _, _, _, _, _, _, p8, _, _⟩ := processEventsLoop_ok mf fuel s s1 hpel
      obtain ⟨q1, q2⟩ := p8 ⟨hm, hl⟩
      split at h
      next hcond =>
        split at h
        next hg0 =>
          have := List.get?_eq_none.mp hg0
          omega
        next t0 hg0 => cases h
      next hcond => cases h

theorem countFrames_replicate_append (n : Nat) (l : List SynthOp) :
    countFrames (List.replicate n SynthOp.frame ++ l) = countFrames l + n := by
  induction n with
  | zero => simp [List.replicate]
  | succ n ih =>
    rw [List.replicate_succ, List.cons_append]
    simp [countFrames, ih]
    omega

/-- What a whole successful render loop preserves and produces: static
fields are unchanged and exactly `remaining` frames are appended to the
trace. -/
theorem renderLoop_ok (fuel gas remaining : Nat) (s s' : MidiFileSequencer)
    (h : renderLoop fuel gas remaining s = .ok s') :
    s'.speed = s.speed ∧ s'.play_loop = s.play_loop ∧ s'.midi_file = s.midi_file ∧
    s'.synthesizer.block_size = s.synthesizer.block_size ∧
    s'.synthesizer.sample_rate = s.synthesizer.sample_rate ∧
    countFrames s'.synthesizer.log = countFrames s.synthesizer.log + remaining := by
  induction gas generalizing remaining s with
  | zero =>
    unfold renderLoop at h
    split at h
    next hrem =>
      cases h
      subst hrem
      exact ⟨rfl, rfl, rfl, rfl, rfl, rfl⟩
    next hrem => cases h
  | succ gas ih =>
    unfold renderLoop at h
    split at h
    next hrem =>
      cases h
      subst hrem
      exact ⟨rfl, rfl, rfl, rfl, rfl, rfl⟩
    next hrem =>
      split at h
      next e heq => cases h
      next s1 heq =>
        have hs1 : s1.speed = s.speed ∧ s1.play_loop = s.play_loop ∧
            s1.midi_file = s.midi_file ∧
            s1.synthesizer.block_size = s.synthesizer.block_size ∧
            s1.synthesizer.sample_rate = s.synthesizer.sample_rate ∧
            countFrames s1.synthesizer.log = countFrames s.synthesizer.log := by
          split at heq
          · split at heq
            next e hpe => cases heq
            next s2 hpe =>
              cases heq
              obtain ⟨p1, p2, p3, _, p5, p6, p7, _⟩ := process_events_ok fuel s s2 hpe
              exact ⟨p1, p2, p3, p5, p6, p7⟩
          · cases heq
            exact ⟨rfl, rfl, rfl, rfl, rfl, rfl⟩
        obtain ⟨r1, r2, r3, r4, r5, r6⟩ := hs1
        split at h
        next hz => cases h
        next hz =>
          obtain ⟨q1, q2, q3, q4, q5, q6⟩ := ih _ _ h
          refine ⟨q1.trans r1, q2.trans r2, q3.trans r3, q4.trans r4, q5.trans r5, ?_⟩
          simp only [writeFrames, Synthesizer.render] at q6
          rw [countFrames_replicate_append, r6] at q6
          rw [q6]
          omega

/-- With looping disabled and a non-negative speed, the render loop never
moves the position backwards. -/
theorem renderLoop_time (fuel gas remaining : Nat) (s s' : MidiFileSequencer)
    (hpl : s.play_loop = false) (hsp : 0 ≤ s.speed)
    (h : renderLoop fuel gas remaining s = .ok s') :
    s.current_time ≤ s'.current_time := by
  induction gas generalizing remaining s with
  | zero =>
    unfold renderLoop at h
    split at h
    · cases h; exact le_refl _
    · cases h
  | succ gas ih =>
    unfold renderLoop at h
    split at h
    next => cases h; exact le_refl _
    next hrem =>
      split at h
      next e heq => cases h
      next s1 heq =>
        have hfacts : s.current_time ≤ s1.current_time ∧ s1.play_loop = false ∧
            s1.speed = s.speed := by
          split at heq
          · split at heq
            next e hpe => cases heq
            next s2 hpe =>
              cases heq
              obtain ⟨p1, p2, _, _, _, _, _, p8⟩ := process_events_ok fuel s s2 hpe
              have ht := p8 hpl
              refine ⟨?_, p2.trans hpl, p1⟩
              have hnn : 0 ≤ s2.speed * (s2.synthesizer.block_size : ℚ) /
                  (s2.synthesizer.sample_rate : ℚ) :=
                div_nonneg (mul_nonneg (p1 ▸ hsp) (Nat.cast_nonneg _)) (Nat.cast_nonneg _)
              calc s.current_time = s2.current_time := ht.symm
                _ ≤ s2.current_time + s2.speed * (s2.synthesizer.block_size : ℚ) /
                    (s2.synthesizer.sample_rate : ℚ) := le_add_of_nonneg_right hnn
          · cases heq
            exact ⟨le_refl _, hpl, rfl⟩
        obtain ⟨hf1, hf2, hf3⟩ := hfacts
        split at h
        next hz => cases h
        next hz =>
          have hrec := ih
            (remaining - min (s1.synthesizer.block_size - s1.block_wrote) remaining)
            { s1 with
              synthesizer :=
                s1.synthesizer.render (min (s1.synthesizer.block_size - s1.block_wrote) remaining)
              block_wrote :=
                s1.block_wrote + min (s1.synthesizer.block_size - s1.block_wrote) remaining }
            hf2 (hf3 ▸ hsp) h
          exact hf1.trans hrec

/-- The render loop fails only with an out-of-bounds access or one of the
two non-termination markers, never with the panic of the length check or
of `set_speed`. -/
theorem renderLoop_err (fuel gas remaining : Nat) (s : MidiFileSequencer) (e : Err)
    (h : renderLoop fuel gas remaining s = .error e) :
    e = .oob ∨ e = .fuel ∨ e = .stuck := by
  induction gas generalizing remaining s with
  | zero =>
    unfold renderLoop at h
    split at h
    · cases h
    · cases h
      exact Or.inr (Or.inr rfl)
  | succ gas ih =>
    unfold renderLoop at h
    split at h
    next => cases h
    next hrem =>
      split at h
      next e1 heq =>
        cases h
        split at heq
        · split at heq
          next e2 hpe =>
            cases heq
            rcases process_events_err fuel s _ hpe with h1 | h1
            · exact Or.inl h1
            · exact Or.inr (Or.inl h1)
          next s2 hpe => cases heq
        · cases heq
      next s1 heq =>
        split at h
        next hz =>
          cases h
          exact Or.inr (Or.inr rfl)
        next hz => exact ih _ _ h

/-- With looping enabled and a bound non-degenerate file, a successful
render keeps both cursor indices strictly in bounds. -/
theorem renderLoop_indices (fuel gas remaining : Nat) (s s' : MidiFileSequencer)
    (mf : MidiFile) (hmf : s.midi_file = some mf) (hpl : s.play_loop = true)
    (hm : s.msg_index < mf.messages.length) (hl : s.loop_index < mf.messages.length)
    (h : renderLoop fuel gas remaining s = .ok s') :
    s'.midi_file = some mf ∧ s'.play_loop = true ∧
    s'.msg_index < mf.messages.length ∧ s'.loop_index < mf.messages.length := by
  induction gas generalizing remaining s with
  | zero =>
    unfold renderLoop at h
    split at h
    · cases h; exact ⟨hmf, hpl, hm, hl⟩
    · cases h
  | succ gas ih =>
    unfold renderLoop at h
    split at h
    next => cases h; exact ⟨hmf, hpl, hm, hl⟩
    next hrem =>
      split at h
      next e heq => cases h
      next s1 heq =>
        have hfacts : s1.midi_file = some mf ∧ s1.play_loop = true ∧
            s1.msg_index < mf.messages.length ∧ s1.loop_index < mf.messages.length := by
          split at heq
          · split at heq
            next e hpe => cases heq
            next s2 hpe =>
              cases heq
              obtain ⟨_, p2, p3, _, _, _, _, _⟩ := process_events_ok fuel s s2 hpe
              obtain ⟨q1, q2⟩ :=
                process_events_indices fuel s s2 mf hmf hpl (Nat.le_of_lt hm) hl hpe
              exact ⟨p3.trans hmf, p2.trans hpl, q1, q2⟩
          · cases heq
            exact ⟨hmf, hpl, hm, hl⟩
        obtain ⟨hf1, hf2, hf3, hf4⟩ := hfacts
        split at h
        next hz => cases h
        next hz =>
          exact ih
            (remaining - min (s1.synthesizer.block_size - s1.block_wrote) remaining)
            { s1 with
              synthesizer :=
                s1.synthesizer.render (min (s1.synthesizer.block_size - s1.block_wrote) remaining)
              block_wrote :=
                s1.block_wrote + min (s1.synthesizer.block_size - s1.block_wrote) remaining }
            hf1 hf2 hf3 hf4 h

/-- With no file bound, a render loop whose gas covers the requested frame
count always succeeds (the source loop cannot panic). -/
theorem renderLoop_none (fuel gas remaining : Nat) (s : MidiFileSequencer)
    (hmf : s.midi_file = none) (hbs : 0 < s.synthesizer.block_size)
    (hbw : s.block_wrote ≤ s.synthesizer.block_size) (hgas : remaining ≤ gas) :
    ∃ s', renderLoop fuel gas remaining s = .ok s' := by
  induction gas generalizing remaining s with
  | zero =>
    have hrem : remaining = 0 := Nat.le_zero.mp hgas
    subst hrem
    exact ⟨s, by unfold renderLoop; rw [if_pos rfl]⟩
  | succ gas ih =>
    by_cases hrem : remaining = 0
    · subst hrem
      exact ⟨s, by unfold renderLoop; rw [if_pos rfl]⟩
    · by_cases hb : s.block_wrote = s.synthesizer.block_size
      · have hz : min (s.synthesizer.block_size - 0) remaining ≠ 0 := by omega
        simp only [renderLoop, if_neg hrem, if_pos hb, process_events_none fuel s hmf,
          advanceBlock, if_neg hz]
        refine ih _ _ hmf hbs ?_ ?_
        · show 0 + min (s.synthesizer.block_size - 0) remaining ≤ s.synthesizer.block_size
          omega
        · show remaining - min (s.synthesizer.block_size - 0) remaining ≤ gas
          omega
      · have hz : min (s.synthesizer.block_size - s.block_wrote) remaining ≠ 0 := by omega
        simp only [renderLoop, if_neg hrem, if_neg hb, advanceBlock, if_neg hz]
        refine ih _ _ hmf hbs ?_ ?_
        · show s.block_wrote + min (s.synthesizer.block_size - s.block_wrote) remaining ≤
            s.synthesizer.block_size
          omega
        · show remaining - min (s.synthesizer.block_size - s.block_wrote) remaining ≤ gas
          omega

theorem renderLoop_zero (fuel gas : Nat) (s : MidiFileSequencer) :
    renderLoop fuel gas 0 s = .ok s := by
  cases gas <;> simp [renderLoop]

theorem Synthesizer.render_render (s : Synthesizer) (m n : Nat) :
    (s.render m).render n = s.render (m + n) := by
  simp [Synthesizer.render, ← List.append_assoc, ← List.replicate_add, Nat.add_comm]

theorem writeFrames_writeFrames (s : MidiFileSequencer) (m n : Nat) :
    writeFrames (writeFrames s m) n = writeFrames s (m + n) := by
  simp [writeFrames, Synthesizer.render_render, Nat.add_assoc]

/-- The gas bound of the render loop is irrelevant as soon as it covers
the requested frame count: every productive iteration writes at least one
frame. -/
theorem renderLoop_gas (fuel gas1 gas2 remaining : Nat) (s : MidiFileSequencer)
    (h1 : remaining ≤ gas1) (h2 : remaining ≤ gas2) :
    renderLoop fuel gas1 remaining s = renderLoop fuel gas2 remaining s := by
  induction gas1 generalizing gas2 remaining s with
  | zero =>
    have hrem : remaining = 0 := Nat.le_zero.mp h1
    subst hrem
    rw [renderLoop_zero, renderLoop_zero]
  | succ gas1 ih =>
    by_cases hrem : remaining = 0
    · subst hrem
      rw [renderLoop_zero, renderLoop_zero]
    · cases gas2 with
      | zero => omega
      | succ g2 =>
        by_cases hb : s.block_wrote = s.synthesizer.block_size
        · cases hpe : process_events fuel s with
          | error e => simp only [renderLoop, if_neg hrem, if_pos hb, hpe]
          | ok s2 =>
            simp only [renderLoop, if_neg hrem, if_pos hb, hpe]
            by_cases hz :
                min ((advanceBlock s2).synthesizer.block_size - (advanceBlock s2).block_wrote)
                  remaining = 0
            · rw [if_pos hz, if_pos hz]
            · rw [if_neg hz, if_neg hz]
              exact ih g2 _ _ (by omega) (by omega)
        · simp only [renderLoop, if_neg hrem, if_neg hb]
          by_cases hz : min (s.synthesizer.block_size - s.block_wrote) remaining = 0
          · rw [if_pos hz, if_pos hz]
          · rw [if_neg hz, if_neg hz]
            exact ih g2 _ _ (by omega) (by omega)

theorem bind_ok_eq {ε α β : Type} (a : α) (f : α → Except ε β) :
    (Except.ok a : Except ε α).bind f = f a := rfl

theorem bind_error_eq {ε α β : Type} (e : ε) (f : α → Except ε β) :
    (Except.error e : Except ε α).bind f = (Except.error e : Except ε β) := rfl

theorem writeFrames_block_wrote (s : MidiFileSequencer) (m : Nat) :
    (writeFrames s m).block_wrote = s.block_wrote + m := rfl

theorem writeFrames_block_size (s : MidiFileSequencer) (m : Nat) :
    (writeFrames s m).synthesizer.block_size = s.synthesizer.block_size := rfl

/-- The induction step of render-call chunking: after the (shared) block
boundary step, consuming `a0 + 1` frames and then `b` frames writes the
same frames and reaches the same state as consuming `a0 + 1 + b` at once,
for every state `s1`. -/
theorem renderLoop_split_step (fuel a0 b : Nat)
    (ih : ∀ m, m < a0 + 1 → ∀ s : MidiFileSequencer,
      (renderLoop fuel m m s).bind (fun s2 => renderLoop fuel b b s2) =
        renderLoop fuel (m + b) (m + b) s)
    (s1 : MidiFileSequencer) :
    (if min (s1.synthesizer.block_size - s1.block_wrote) (a0 + 1) = 0 then
        (.error .stuck : Except Err MidiFileSequencer)
      else
        renderLoop fuel a0
          ((a0 + 1) - min (s1.synthesizer.block_size - s1.block_wrote) (a0 + 1))
          (writeFrames s1 (min (s1.synthesizer.block_size - s1.block_wrote) (a0 + 1)))).bind
      (fun s2 => renderLoop fuel b b s2) =
    (if min (s1.synthesizer.block_size - s1.block_wrote) (a0 + b + 1) = 0 then
        (.error .stuck : Except Err MidiFileSequencer)
      else
        renderLoop fuel (a0 + b)
          ((a0 + b + 1) - min (s1.synthesizer.block_size - s1.block_wrote) (a0 + b + 1))
          (writeFrames s1 (min (s1.synthesizer.block_size - s1.block_wrote) (a0 + b + 1)))) := by
  by_cases hz1 : min (s1.synthesizer.block_size - s1.block_wrote) (a0 + 1) = 0
  · have hz2 : min (s1.synthesizer.block_size - s1.block_wrote) (a0 + b + 1) = 0 := by omega
    rw [if_pos hz1, if_pos hz2, bind_error_eq]
  · rw [if_neg hz1]
    by_cases hcase : s1.synthesizer.block_size - s1.block_wrote ≤ a0 + 1
    · have hz2 : ¬(min (s1.synthesizer.block_size - s1.block_wrote) (a0 + b + 1) = 0) := by
        omega
      have hm1 : min (s1.synthesizer.block_size - s1.block_wrote) (a0 + 1)
          = s1.synthesizer.block_size - s1.block_wrote := by omega
      have hm2 : min (s1.synthesizer.block_size - s1.block_wrote) (a0 + b + 1)
          = s1.synthesizer.block_size - s1.block_wrote := by omega
      rw [if_neg hz2, hm1, hm2]
      rw [renderLoop_gas fuel a0
        ((a0 + 1) - (s1.synthesizer.block_size - s1.block_wrote))
        ((a0 + 1) - (s1.synthesizer.block_size - s1.block_wrote))
        (writeFrames s1 (s1.synthesizer.block_size - s1.block_wrote)) (by omega) (by omega)]
      have hrem2 : (a0 + b + 1) - (s1.synthesizer.block_size - s1.block_wrote)
          = ((a0 + 1) - (s1.synthesizer.block_size - s1.block_wrote)) + b := by omega
      rw [hrem2]
      rw [renderLoop_gas fuel (a0 + b)
        (((a0 + 1) - (s1.synthesizer.block_size - s1.block_wrote)) + b)
        (((a0 + 1) - (s1.synthesizer.block_size - s1.block_wrote)) + b)
        (writeFrames s1 (s1.synthesizer.block_size - s1.block_wrote)) (by omega) (by omega)]
      exact ih _ (by omega) _
    · have hm1 : min (s1.synthesizer.block_size - s1.block_wrote) (a0 + 1) = a0 + 1 := by
        omega
      rw [hm1, Nat.sub_self, renderLoop_zero, bind_ok_eq]
      by_cases hcase2 : a0 + b + 1 ≤ s1.synthesizer.block_size - s1.block_wrote
      · have hz2 : ¬(min (s1.synthesizer.block_size - s1.block_wrote) (a0 + b + 1) = 0) := by
          omega
        have hm2 : min (s1.synthesizer.block_size - s1.block_wrote) (a0 + b + 1)
            = a0 + b + 1 := by omega
        rw [if_neg hz2, hm2, Nat.sub_self, renderLoop_zero]
        cases b with
        | zero => rw [renderLoop_zero]
        | succ b0 =>
          have hnb : ¬((writeFrames s1 (a0 + 1)).block_wrote
              = (writeFrames s1 (a0 + 1)).synthesizer.block_size) := by
            rw [writeFrames_block_wrote, writeFrames_block_size]
            omega
          have hbne : ¬(b0 + 1 = 0) := Nat.succ_ne_zero b0
          simp only [renderLoop, if_neg hbne, if_neg hnb]
          simp only [writeFrames_block_wrote, writeFrames_block_size]
          have hm3 : min (s1.synthesizer.block_size - (s1.block_wrote + (a0 + 1))) (b0 + 1)
              = b0 + 1 := by omega
          rw [hm3, Nat.sub_self, renderLoop_zero, writeFrames_writeFrames]
          have harg : (a0 + 1) + (b0 + 1) = a0 + (b0 + 1) + 1 := by omega
          rw [harg, if_neg hbne]
      · have hz2 : ¬(min (s1.synthesizer.block_size - s1.block_wrote) (a0 + b + 1) = 0) := by
          omega
        have hm2 : min (s1.synthesizer.block_size - s1.block_wrote) (a0 + b + 1)
            = s1.synthesizer.block_size - s1.block_wrote := by omega
        rw [if_neg hz2, hm2]
        cases b with
        | zero => exact (by omega : False).elim
        | succ b0 =>
          have hnb : ¬((writeFrames s1 (a0 + 1)).block_wrote
              = (writeFrames s1 (a0 + 1)).synthesizer.block_size) := by
            rw [writeFrames_block_wrote, writeFrames_block_size]
            omega
          have hbne : ¬(b0 + 1 = 0) := Nat.succ_ne_zero b0
          simp only [renderLoop, if_neg hbne, if_neg hnb]
          simp only [writeFrames_block_wrote, writeFrames_block_size]
          have hz3 : ¬(min (s1.synthesizer.block_size - (s1.block_wrote + (a0 + 1)))
              (b0 + 1) = 0) := by omega
          have hm3 : min (s1.synthesizer.block_size - (s1.block_wrote + (a0 + 1))) (b0 + 1)
              = (s1.synthesizer.block_size - s1.block_wrote) - (a0 + 1) := by omega
          rw [if_neg hz3, hm3, writeFrames_writeFrames]
          have harg : (a0 + 1) + ((s1.synthesizer.block_size - s1.block_wrote) - (a0 + 1))
              = s1.synthesizer.block_size - s1.block_wrote := by omega
          rw [harg]
          have hremL : (b0 + 1) - ((s1.synthesizer.block_size - s1.block_wrote) - (a0 + 1))
              = (a0 + (b0 + 1) + 1) - (s1.synthesizer.block_size - s1.block_wrote) := by
            omega
          rw [hremL]
          exact renderLoop_gas fuel b0 (a0 + (b0 + 1)) _ _ (by omega) (by omega)

/-- Rendering `a` frames and then `b` frames, each with its canonical gas,
is the same as rendering `a + b` frames. -/
theorem renderLoop_split (fuel a b : Nat) (s : MidiFileSequencer) :
    (renderLoop fuel a a s).bind (fun s2 => renderLoop fuel b b s2) =
      renderLoop fuel (a + b) (a + b) s := by
  induction a using Nat.strong_induction_on generalizing s with
  | _ a ih =>
    cases a with
    | zero =>
      rw [renderLoop_zero, bind_ok_eq, Nat.zero_add]
    | succ a0 =>
      have hadd : a0 + 1 + b = a0 + b + 1 := by omega
      rw [hadd]
      have hne1 : ¬(a0 + 1 = 0) := Nat.succ_ne_zero a0
      have hne2 : ¬(a0 + b + 1 = 0) := Nat.succ_ne_zero _
      by_cases hb0 : s.block_wrote = s.synthesizer.block_size
      · cases hpe : process_events fuel s with
        | error e =>
          simp only [renderLoop, if_neg hne1, if_neg hne2, if_pos hb0, hpe, bind_error_eq]
        | ok s2 =>
          simp only [renderLoop, if_neg hne1, if_neg hne2, if_pos hb0, hpe]
          exact renderLoop_split_step fuel a0 b ih (advanceBlock s2)
      · simp only [renderLoop, if_neg hne1, if_neg hne2, if_neg hb0]
        exact renderLoop_split_step fuel a0 b ih s

/-- One-step unfolding of the render loop for a gas known to be
positive. -/
theorem renderLoop_eq (fuel gas remaining : Nat) (s : MidiFileSequencer) (hg : gas ≠ 0) :
    renderLoop fuel gas remaining s =
      if remaining = 0 then .ok s
      else
        match
          (if s.block_wrote = s.synthesizer.block_size then
            match process_events fuel s with
            | .error e => .error e
            | .ok s1 => .ok (advanceBlock s1)
          else .ok s : Except Err MidiFileSequencer)
        with
        | .error e => .error e
        | .ok s1 =>
          if min (s1.synthesizer.block_size - s1.block_wrote) remaining = 0 then .error .stuck
          else
            renderLoop fuel (gas - 1)
              (remaining - min (s1.synthesizer.block_size - s1.block_wrote) remaining)
              (writeFrames s1 (min (s1.synthesizer.block_size - s1.block_wrote) remaining)) := by
  cases gas with
  | zero => exact absurd rfl hg
  | succ g => rfl

/-- Chunking transparency of the public `render` entry point: rendering
`a` frames and then `b` frames is the same as rendering `a + b` frames. -/
theorem render_split (fuel a b : Nat) (s : MidiFileSequencer) :
    (render fuel s a a).bind (fun s2 => render fuel s2 b b) =
      render fuel s (a + b) (a + b) := by
  simp only [render, if_pos rfl]
  exact renderLoop_split fuel a b s

/-- A sequence of `render` calls equals the single `render` call of the
total length. -/
theorem renderChunks_eq (fuel : Nat) (lens : List Nat) (s : MidiFileSequencer) :
    renderChunks fuel lens s = render fuel s lens.sum lens.sum := by
  induction lens generalizing s with
  | nil =>
    simp [renderChunks, render, renderLoop_zero]
  | cons n rest ih =>
    rw [List.sum_cons, ← render_split fuel n rest.sum s]
    unfold renderChunks
    cases hres : render fuel s n n with
    | error e => rw [bind_error_eq]
    | ok s1 => rw [bind_ok_eq]; exact ih s1

/-- With looping disabled, starting at a block boundary and rendering a
whole number `k` of blocks advances the position by exactly
`speed * (k * block_size) / sample_rate`. -/
theorem renderLoop_exact_time (fuel : Nat) (k : Nat) (s s' : MidiFileSequencer)
    (hpl : s.play_loop = false)
    (hbw : s.block_wrote = s.synthesizer.block_size)
    (h : renderLoop fuel (k * s.synthesizer.block_size) (k * s.synthesizer.block_size) s
      = .ok s') :
    s'.current_time = s.current_time +
      s.speed * ((k * s.synthesizer.block_size : Nat) : ℚ) /
        (s.synthesizer.sample_rate : ℚ) := by
  induction k generalizing s with
  | zero =>
    rw [Nat.zero_mul, renderLoop_zero] at h
    cases h
    simp
  | succ k ih =>
    by_cases hbs : s.synthesizer.block_size = 0
    · rw [hbs, Nat.mul_zero, renderLoop_zero] at h
      cases h
      simp [hbs]
    · have hsplit := renderLoop_split fuel s.synthesizer.block_size
        (k * s.synthesizer.block_size) s
      have hn : s.synthesizer.block_size + k * s.synthesizer.block_size
          = (k + 1) * s.synthesizer.block_size := by ring
      rw [hn, h] at hsplit
      rw [renderLoop_eq fuel s.synthesizer.block_size s.synthesizer.block_size s hbs,
        if_neg hbs, if_pos hbw] at hsplit
      cases hpe : process_events fuel s with
      | error e =>
        simp only [hpe, bind_error_eq] at hsplit
        cases hsplit
      | ok s2 =>
        simp only [hpe] at hsplit
        obtain ⟨p1, p2, p3, p4, p5, p6, p7, p8⟩ := process_events_ok fuel s s2 hpe
        have hzB : (advanceBlock s2).block_wrote = 0 := rfl
        have hbsA : (advanceBlock s2).synthesizer.block_size = s.synthesizer.block_size := p5
        have hminz : ¬(min ((advanceBlock s2).synthesizer.block_size -
            (advanceBlock s2).block_wrote) s.synthesizer.block_size = 0) := by
          omega
        have hminv : min ((advanceBlock s2).synthesizer.block_size -
            (advanceBlock s2).block_wrote) s.synthesizer.block_size
            = s.synthesizer.block_size := by
          omega
        rw [if_neg hminz, hminv, Nat.sub_self, renderLoop_zero, bind_ok_eq] at hsplit
        have hplB : (writeFrames (advanceBlock s2) s.synthesizer.block_size).play_loop
            = false := p2.trans hpl
        have hbwB : (writeFrames (advanceBlock s2) s.synthesizer.block_size).block_wrote
            = (writeFrames (advanceBlock s2) s.synthesizer.block_size).synthesizer.block_size := by
          rw [writeFrames_block_wrote, writeFrames_block_size, hzB, Nat.zero_add, hbsA]
        have hbsB : (writeFrames (advanceBlock s2)
            s.synthesizer.block_size).synthesizer.block_size = s.synthesizer.block_size := by
          rw [writeFrames_block_size, hbsA]
        have hres := ih (writeFrames (advanceBlock s2) s.synthesizer.block_size) hplB hbwB
          (by rw [hbsB]; exact hsplit)
        rw [hbsB] at hres
        simp only [writeFrames, advanceBlock, Synthesizer.render] at hres
        rw [p8 hpl, p1, p5, p6] at hres
        rw [hres]
        push_cast
        ring

/-- With looping disabled and speed zero, a successful render leaves the
position untouched. -/
theorem renderLoop_freeze (fuel gas remaining : Nat) (s s' : MidiFileSequencer)
    (hpl : s.play_loop = false) (hsp : s.speed = 0)
    (h : renderLoop fuel gas remaining s = .ok s') :
    s'.current_time = s.current_time := by
  induction gas generalizing remaining s with
  | zero =>
    unfold renderLoop at h
    split at h
    · cases h; rfl
    · cases h
  | succ gas ih =>
    unfold renderLoop at h
    split at h
    next => cases h; rfl
    next hrem =>
      split at h
      next e heq => cases h
      next s1 heq =>
        have hfacts : s1.current_time = s.current_time ∧ s1.play_loop = false ∧
            s1.speed = 0 := by
          split at heq
          · split at heq
            next e hpe => cases heq
            next s2 hpe =>
              cases heq
              obtain ⟨p1, p2, _, _, _, _, _, p8⟩ := process_events_ok fuel s s2 hpe
              have hsp2 : s2.speed = 0 := p1.trans hsp
              refine ⟨?_, p2.trans hpl, hsp2⟩
              show s2.current_time + s2.speed * (s2.synthesizer.block_size : ℚ) /
                (s2.synthesizer.sample_rate : ℚ) = s.current_time
              rw [hsp2, p8 hpl]
              ring
          · cases heq
            exact ⟨rfl, hpl, hsp⟩
        obtain ⟨hf1, hf2, hf3⟩ := hfacts
        split at h
        next hz => cases h
        next hz =>
          have hrec := ih
            (remaining - min (s1.synthesizer.block_size - s1.block_wrote) remaining)
            (writeFrames s1 (min (s1.synthesizer.block_size - s1.block_wrote) remaining))
            hf2 hf3 h
          exact hrec.trans hf1

/-- The invariant of looping playback sessions over a non-empty file: the
file stays bound, looping stays enabled, and both cursor indices stay
strictly in bounds. -/
theorem loopReach_invariant (mf : MidiFile) (s : MidiFileSequencer)
    (hne : mf.messages ≠ []) (h : LoopReach mf s) :
    s.midi_file = some mf ∧ s.play_loop = true ∧
    s.msg_index < mf.messages.length ∧ s.loop_index < mf.messages.length := by
  induction h with
  | start s0 =>
    have hp : 0 < mf.messages.length := List.length_pos.mpr hne
    exact ⟨rfl, rfl, hp, hp⟩
  | renderStep s s2 fuel n m hr hrend ihr =>
    obtain ⟨i1, i2, i3, i4⟩ := ihr
    unfold render at hrend
    split at hrend
    · obtain ⟨j1, j2, j3, j4⟩ := renderLoop_indices fuel n n s s2 mf i1 i2 i3 i4 hrend
      exact ⟨j1, j2, j3, j4⟩
    · cases hrend
  | speedStep s s2 v hr hset ihr =>
    obtain ⟨i1, i2, i3, i4⟩ := ihr
    unfold MidiFileSequencer.set_speed at hset
    split at hset
    · cases hset
    · cases hset
      exact ⟨i1, i2, i3, i4⟩

/-- A three-message file whose LoopStart sits at index 1, used to exercise
the implicit end-of-sequence wraparound to a non-default anchor. -/
def c5mf : MidiFile :=
  ⟨[.normal 144 60 100, .loopStart, .normal 145 61 101], [0, 0, 0]⟩

/-- A looping session over `c5mf` right after `play`. -/
def c5s : MidiFileSequencer := (MidiFileSequencer.new ⟨1, 1, []⟩).play c5mf true

/-- The state of `c5s` after the whole scan: both channel events
dispatched and the anchor recorded at the LoopStart's index 1. -/
def c5s1 : MidiFileSequencer :=
  { c5s with
    synthesizer := (c5s.synthesizer.process_midi_message 0 144 60 100).process_midi_message
      1 144 61 101
    msg_index := 3
    loop_index := 1 }

section ClaimTheorems

attribute [local semireducible] Rat.add Rat.mul Rat.inv Rat.sub

/-- C1 counterexample: with messages `[Normal, LoopEnd]` at times `[0, 1]`,
looping enabled, block size 1 and sample rate 1, rendering 3 frames
triggers the LoopEnd wraparound twice (two non-forced `note_off_all`
calls), yet the sentinel channel event sitting at the loop anchor index 0
is dispatched exactly once — it is never reprocessed, contradicting the
claim that dispatch restarts from the anchor index itself. -/
theorem spec_c1_anchor_not_reprocessed :
    (match render 10
        ((MidiFileSequencer.new ⟨1, 1, []⟩).play
          ⟨[.normal 144 60 100, .loopEnd], [0, 1]⟩ true) 3 3 with
     | .ok s => (countMidi s.synthesizer.log, countNoteOff s.synthesizer.log)
     | .error _ => (99, 99)) = (1, 2) := by
  decide

/-- C1 (amended): when a LoopEnd message is dispatched with looping
enabled, the sequence-time is reset to the loop anchor's timestamp, all
sounding notes are released non-forced, and the next-message index is set
to the anchor index and then incremented by the loop's shared
`msg_index += 1`, so the scan resumes from `loop_index + 1`: the events
strictly between the anchor and the LoopEnd become due again, but the
event at the anchor index itself is not re-dispatched. -/
theorem spec_c1_loopend_rewind (mf : MidiFile) (s : MidiFileSequencer) (fuel : Nat)
    (t t0 : ℚ)
    (hpl : s.play_loop = true)
    (hmsg : mf.messages.get? s.msg_index = some .loopEnd)
    (htime : mf.times.get? s.msg_index = some t)
    (hdue : t ≤ s.current_time)
    (hanchor : mf.times.get? s.loop_index = some t0) :
    processEventsLoop mf (fuel + 1) s =
      processEventsLoop mf fuel
        { s with
          current_time := t0
          msg_index := s.loop_index + 1
          synthesizer := s.synthesizer.note_off_all false } := by
  obtain ⟨hlt, hget⟩ := List.get?_eq_some.mp hmsg
  have hstep : eventStep mf s = .cont
      { s with
        current_time := t0
        msg_index := s.loop_index + 1
        synthesizer := s.synthesizer.note_off_all false } := by
    unfold eventStep
    rw [dif_pos hlt]
    simp only [htime, if_pos hdue, hget, hpl, if_true, hanchor]
  have hunfold : processEventsLoop mf (fuel + 1) s =
      match eventStep mf s with
      | .cont s1 => processEventsLoop mf fuel s1
      | .halt => .ok s
      | .err e => .error e := rfl
  rw [hunfold, hstep]

/-- C1 witness: the rewind equation at a one-message file `[LoopEnd]` at
time 0 — the wraparound leaves the index at `loop_index + 1 = 1`. -/
theorem spec_c1_loopend_rewind_witness :
    processEventsLoop ⟨[.loopEnd], [0]⟩ 1
        ((MidiFileSequencer.new ⟨1, 1, []⟩).play ⟨[.loopEnd], [0]⟩ true) =
      processEventsLoop ⟨[.loopEnd], [0]⟩ 0
        { (MidiFileSequencer.new ⟨1, 1, []⟩).play ⟨[.loopEnd], [0]⟩ true with
          current_time := 0
          msg_index := 0 + 1
          synthesizer := ((MidiFileSequencer.new ⟨1, 1, []⟩).play
            ⟨[.loopEnd], [0]⟩ true).synthesizer.note_off_all false } :=
  spec_c1_loopend_rewind ⟨[.loopEnd], [0]⟩
    ((MidiFileSequencer.new ⟨1, 1, []⟩).play ⟨[.loopEnd], [0]⟩ true) 0 0 0
    rfl (by decide) (by decide) (by decide) (by decide)

/-- C2 counterexample: binding the empty sequence with looping enabled is
reachable (it is the very first `play`), and there `end_of_sequence()`
already reports `true`, contradicting "always false while looping is
enabled". -/
theorem spec_c2_empty_loop_counterexample :
    LoopReach ⟨[], []⟩ ((MidiFileSequencer.new ⟨1, 1, []⟩).play ⟨[], []⟩ true) ∧
    ((MidiFileSequencer.new ⟨1, 1, []⟩).play ⟨[], []⟩ true).end_of_sequence = true :=
  ⟨LoopReach.start _, by decide⟩

/-- C2 (amended): `end_of_sequence()` is true exactly when no file is
bound or the next-message index equals the sequence length; and every
state reachable through play/render/set_speed while a NON-EMPTY sequence
is bound with looping enabled has `end_of_sequence() = false` (for the
empty sequence, `play` with looping already yields `true`). -/
theorem spec_c2_end_of_sequence :
    (∀ s : MidiFileSequencer, s.end_of_sequence = true ↔
      (s.midi_file = none ∨
        ∃ mf, s.midi_file = some mf ∧ s.msg_index = mf.messages.length)) ∧
    (∀ (mf : MidiFile) (s : MidiFileSequencer), mf.messages ≠ [] → LoopReach mf s →
      s.end_of_sequence = false) := by
  constructor
  · intro s
    unfold MidiFileSequencer.end_of_sequence
    cases hmf : s.midi_file with
    | none => simp [hmf]
    | some mf => simp [hmf, beq_iff_eq]
  · intro mf s hne hreach
    obtain ⟨i1, _, i3, _⟩ := loopReach_invariant mf s hne hreach
    unfold MidiFileSequencer.end_of_sequence
    rw [i1]
    simp only [beq_eq_false_iff_ne, ne_eq]
    omega

/-- C2 witness: a looping session over the one-message file never reports
end of sequence right after `play`. -/
theorem spec_c2_end_of_sequence_witness :
    ((MidiFileSequencer.new ⟨1, 1, []⟩).play ⟨[.normal 144 60 100], [0]⟩ true).end_of_sequence
      = false :=
  spec_c2_end_of_sequence.2 ⟨[.normal 144 60 100], [0]⟩
    ((MidiFileSequencer.new ⟨1, 1, []⟩).play ⟨[.normal 144 60 100], [0]⟩ true)
    (by decide) (LoopReach.start _)

/-- C3: render-call chunking is transparent — any sequence of `render`
calls whose lengths sum to a total produces exactly the outcome (final
cursor state, synthesizer interaction trace, and hence the rendered
samples) of one `render` call of the total length. -/
theorem spec_c3_chunking :
    ∀ (fuel : Nat) (lens : List Nat) (s : MidiFileSequencer),
      renderChunks fuel lens s = render fuel s lens.sum lens.sum ∧
      (∀ s1 s2 : MidiFileSequencer, renderChunks fuel lens s = .ok s1 →
        render fuel s lens.sum lens.sum = .ok s2 →
        outputFrames s1.synthesizer.log = outputFrames s2.synthesizer.log ∧ s1 = s2) := by
  intro fuel lens s
  refine ⟨renderChunks_eq fuel lens s, ?_⟩
  intro s1 s2 h1 h2
  rw [renderChunks_eq fuel lens s, h2] at h1
  cases h1
  exact ⟨rfl, rfl⟩

/-- C3 witness: splitting a 3-frame render into 1 + 2 frames. -/
theorem spec_c3_chunking_witness :
    renderChunks 1 [1, 2] (MidiFileSequencer.new ⟨1, 1, []⟩) =
      render 1 (MidiFileSequencer.new ⟨1, 1, []⟩) ([1, 2] : List Nat).sum
        ([1, 2] : List Nat).sum :=
  (spec_c3_chunking 1 [1, 2] (MidiFileSequencer.new ⟨1, 1, []⟩)).1

/-- C4: `render` with buffers of different lengths fails loudly with the
length-mismatch panic before rendering anything (the error carries no
successor state, mirroring the Rust panic raised before any work); with
equal lengths that failure is impossible. -/
theorem spec_c4_length_mismatch :
    (∀ (fuel : Nat) (s : MidiFileSequencer) (n m : Nat), n ≠ m →
      render fuel s n m = .error .mismatch) ∧
    (∀ (fuel : Nat) (s : MidiFileSequencer) (n : Nat),
      render fuel s n n ≠ .error .mismatch) := by
  constructor
  · intro fuel s n m hne
    unfold render
    rw [if_neg hne]
  · intro fuel s n h
    unfold render at h
    rw [if_pos rfl] at h
    rcases renderLoop_err fuel n n s _ h with h1 | h1 | h1 <;> cases h1

/-- C4 witness: a 1-frame left buffer with a 2-frame right buffer
panics. -/
theorem spec_c4_length_mismatch_witness :
    render 1 (MidiFileSequencer.new ⟨1, 1, []⟩) 1 2 = .error .mismatch :=
  spec_c4_length_mismatch.1 1 (MidiFileSequencer.new ⟨1, 1, []⟩) 1 2 (by decide)

/-- C5: when the scan completes at the end of the sequence with looping
enabled, the implicit wraparound fires exactly like LoopEnd's, for
whatever anchor the scan has recorded: the position resets to that loop
anchor's timestamp, the index rewinds to the anchor index, and all notes
are released non-forced — independent of any explicit LoopEnd marker.
Moreover, when the session started with the default anchor 0 and the
sequence contains no LoopStart, the anchor wrapped to is still that
default index 0. -/
theorem spec_c5_implicit_loop_end (fuel : Nat) (s s1 : MidiFileSequencer)
    (mf : MidiFile) (t0 : ℚ)
    (hmf : s.midi_file = some mf) (hpl : s.play_loop = true)
    (hpel : processEventsLoop mf fuel s = .ok s1)
    (hend : s1.msg_index = mf.messages.length)
    (ht0 : mf.times.get? s1.loop_index = some t0) :
    process_events fuel s = .ok
      { s1 with
        current_time := t0
        msg_index := s1.loop_index
        synthesizer := s1.synthesizer.note_off_all false } ∧
    (s.loop_index = 0 → Message.loopStart ∉ mf.messages → s1.loop_index = 0) := by
  obtain ⟨_, p2, _, _, _, _, _, _, _, p10⟩ := processEventsLoop_ok mf fuel s s1 hpel
  constructor
  · simp only [process_events, hmf, hpel]
    rw [if_pos ⟨hend, p2.trans hpl⟩]
    simp only [ht0]
  · intro hl0 hns
    exact (p10 hns).trans hl0

/-- C5 witness: the implicit end-of-sequence wraparound over
`[Normal, LoopStart, Normal]` rewinds to the recorded anchor index 1 —
not the default 0 — at that anchor's timestamp, releasing all notes
non-forced. -/
theorem spec_c5_implicit_loop_end_witness :
    process_events 4 c5s = .ok
      { c5s1 with
        current_time := 0
        msg_index := 1
        synthesizer := c5s1.synthesizer.note_off_all false } ∧
    (c5s.loop_index = 0 → Message.loopStart ∉ c5mf.messages → c5s1.loop_index = 0) :=
  spec_c5_implicit_loop_end 4 c5s c5s1 c5mf 0 rfl rfl (by decide) (by decide) (by decide)

/-- A fresh sequencer positioned exactly at a block boundary (as `play`
leaves `block_wrote`), with looping disabled and the default speed 1. -/
def c6s : MidiFileSequencer :=
  { MidiFileSequencer.new ⟨1, 1, []⟩ with block_wrote := 1 }

/-- A fresh sequencer with its speed set to 0 and looping disabled. -/
def c7s : MidiFileSequencer :=
  { MidiFileSequencer.new ⟨1, 1, []⟩ with speed := 0 }

/-- C6: with looping disabled and speed > 0, the position never decreases
across successful `render` calls, and a render of a whole number `k` of
blocks started at a block boundary advances it by exactly
`speed * frames / sample_rate`. -/
theorem spec_c6_position_monotone_exact :
    (∀ (fuel n : Nat) (s s' : MidiFileSequencer), s.play_loop = false → 0 < s.speed →
      render fuel s n n = .ok s' → s.get_position ≤ s'.get_position) ∧
    (∀ (fuel k : Nat) (s s' : MidiFileSequencer), s.play_loop = false → 0 < s.speed →
      s.block_wrote = s.synthesizer.block_size →
      render fuel s (k * s.synthesizer.block_size) (k * s.synthesizer.block_size)
        = .ok s' →
      s'.get_position = s.get_position +
        s.speed * ((k * s.synthesizer.block_size : Nat) : ℚ) /
          (s.synthesizer.sample_rate : ℚ)) := by
  constructor
  · intro fuel n s s' hpl hsp h
    unfold render at h
    rw [if_pos rfl] at h
    exact renderLoop_time fuel n n s s' hpl (le_of_lt hsp) h
  · intro fuel k s s' hpl hsp hbw h
    unfold render at h
    rw [if_pos rfl] at h
    exact renderLoop_exact_time fuel k s s' hpl hbw h

/-- C6 witness: one block of one frame at speed 1 and sample rate 1
advances the position by exactly 1 second. -/
theorem spec_c6_position_witness :
    (writeFrames (advanceBlock c6s) 1).get_position = c6s.get_position +
      c6s.speed * ((1 * c6s.synthesizer.block_size : Nat) : ℚ) /
        (c6s.synthesizer.sample_rate : ℚ) :=
  spec_c6_position_monotone_exact.2 1 1 c6s (writeFrames (advanceBlock c6s) 1)
    rfl (by decide) rfl (by decide)

/-- C7 counterexample: after playing `[LoopStart, Normal, LoopEnd]` at
times `[0, 1, 2]` (block size 1, sample rate 1) for two frames the
position is 2; with the speed then set to 0, rendering one more frame
dispatches the due LoopEnd and resets the position to 0 — so a speed of 0
does not keep `current_time` constant, refuting the claim's freeze for
looping playback. -/
theorem spec_c7_speed_zero_wrap_counterexample :
    (match render 10
        ((MidiFileSequencer.new ⟨1, 1, []⟩).play
          ⟨[.loopStart, .normal 144 60 100, .loopEnd], [0, 1, 2]⟩ true) 2 2 with
     | .ok s =>
        (match s.set_speed 0 with
         | .ok s2 =>
            (match render 10 s2 1 1 with
             | .ok s3 => (s.current_time, s3.current_time)
             | .error _ => (99, 99))
         | .error _ => (98, 98))
     | .error _ => (97, 97)) = (2, 0) := by
  decide

/-- C7 (amended): `set_speed` fails loudly on a negative value and leaves
the state unchanged; any value ≥ 0 is stored exactly; and a speed of 0
freezes the position while looping is DISABLED, with `render` still
producing every requested frame — with looping enabled a due loop
wraparound can still reset the position to the anchor's timestamp. -/
theorem spec_c7_set_speed :
    (∀ (s : MidiFileSequencer) (v : ℚ), v < 0 → s.set_speed v = .error .negativeSpeed) ∧
    (∀ (s : MidiFileSequencer) (v : ℚ), 0 ≤ v → s.set_speed v = .ok { s with speed := v }) ∧
    (∀ (fuel n : Nat) (s s' : MidiFileSequencer), s.speed = 0 → s.play_loop = false →
      render fuel s n n = .ok s' →
      s'.current_time = s.current_time ∧
      countFrames s'.synthesizer.log = countFrames s.synthesizer.log + n) := by
  refine ⟨?_, ?_, ?_⟩
  · intro s v hv
    unfold MidiFileSequencer.set_speed
    rw [if_pos hv]
  · intro s v hv
    unfold MidiFileSequencer.set_speed
    rw [if_neg (not_lt.mpr hv)]
  · intro fuel n s s' hsp hpl h
    unfold render at h
    rw [if_pos rfl] at h
    exact ⟨renderLoop_freeze fuel n n s s' hpl hsp h,
      (renderLoop_ok fuel n n s s' h).2.2.2.2.2⟩

/-- C7 witness: at speed 0 with no looping, one rendered frame leaves the
position unchanged while the frame count grows by one. -/
theorem spec_c7_set_speed_witness :
    (writeFrames c7s 1).current_time = c7s.current_time ∧
    countFrames (writeFrames c7s 1).synthesizer.log =
      countFrames c7s.synthesizer.log + 1 :=
  spec_c7_set_speed.2.2 1 1 c7s (writeFrames c7s 1) rfl rfl (by decide)

/-- C8: with no sequence bound (before any `play`, or after `stop`),
`render` with equal-length buffers never panics: event processing returns
immediately, the synthesizer is still driven for every requested frame,
and `end_of_sequence()` reports true before and after. -/
theorem spec_c8_idle_render (fuel n : Nat) (s : MidiFileSequencer)
    (hmf : s.midi_file = none) (hbs : 0 < s.synthesizer.block_size)
    (hbw : s.block_wrote ≤ s.synthesizer.block_size) :
    (∀ f, process_events f s = .ok s) ∧
    s.end_of_sequence = true ∧
    ∃ s', render fuel s n n = .ok s' ∧
      countFrames s'.synthesizer.log = countFrames s.synthesizer.log + n ∧
      s'.end_of_sequence = true := by
  refine ⟨fun f => process_events_none f s hmf, ?_, ?_⟩
  · unfold MidiFileSequencer.end_of_sequence
    rw [hmf]
  · obtain ⟨s', hs'⟩ := renderLoop_none fuel n n s hmf hbs hbw (le_refl n)
    refine ⟨s', ?_, (renderLoop_ok fuel n n s s' hs').2.2.2.2.2, ?_⟩
    · unfold render
      rw [if_pos rfl]
      exact hs'
    · have hmf' : s'.midi_file = none := (renderLoop_ok fuel n n s s' hs').2.2.1.trans hmf
      unfold MidiFileSequencer.end_of_sequence
      rw [hmf']

/-- C8 witness: rendering two frames right after `stop()` succeeds. -/
theorem spec_c8_idle_render_witness :
    (∀ f, process_events f ((MidiFileSequencer.new ⟨1, 1, []⟩).stop)
      = .ok ((MidiFileSequencer.new ⟨1, 1, []⟩).stop)) ∧
    ((MidiFileSequencer.new ⟨1, 1, []⟩).stop).end_of_sequence = true ∧
    ∃ s', render 1 ((MidiFileSequencer.new ⟨1, 1, []⟩).stop) 2 2 = .ok s' ∧
      countFrames s'.synthesizer.log =
        countFrames ((MidiFileSequencer.new ⟨1, 1, []⟩).stop).synthesizer.log + 2 ∧
      s'.end_of_sequence = true :=
  spec_c8_idle_render 1 2 ((MidiFileSequencer.new ⟨1, 1, []⟩).stop) rfl
    (by decide) (by decide)

/-- C9: with a non-empty bound sequence whose times list matches its
messages list and in-bounds cursor indices, event processing never makes
an out-of-bounds access; the guarantee genuinely excludes the empty
sequence with looping enabled, where the end-of-sequence wraparound reads
`times[0]` of an empty array. -/
theorem spec_c9_in_bounds :
    (∀ (fuel : Nat) (s : MidiFileSequencer) (mf : MidiFile),
      s.midi_file = some mf → mf.messages ≠ [] →
      mf.times.length = mf.messages.length →
      s.msg_index ≤ mf.messages.length → s.loop_index < mf.messages.length →
      process_events fuel s ≠ .error .oob) ∧
    process_events 1 ((MidiFileSequencer.new ⟨1, 1, []⟩).play ⟨[], []⟩ true)
      = .error .oob := by
  constructor
  · intro fuel s mf hmf _ hlen hm hl
    exact process_events_no_oob fuel s mf hmf hlen hm hl
  · decide

/-- C9 witness: a looping session over a non-empty one-message file never
reports an out-of-bounds access from event processing. -/
theorem spec_c9_in_bounds_witness :
    process_events 1 ((MidiFileSequencer.new ⟨1, 1, []⟩).play ⟨[.other], [0]⟩ true)
      ≠ .error .oob :=
  spec_c9_in_bounds.1 1 ((MidiFileSequencer.new ⟨1, 1, []⟩).play ⟨[.other], [0]⟩ true)
    ⟨[.other], [0]⟩ rfl (by decide) (by decide) (by decide) (by decide)

/-- C10: `play` and `stop` leave the speed unchanged, the speed is 1 at
construction, and successful `render` calls preserve it — only
`set_speed` writes the field. -/
theorem spec_c10_speed_frame :
    (∀ synth : Synthesizer, (MidiFileSequencer.new synth).get_speed = 1) ∧
    (∀ (s : MidiFileSequencer) (mf : MidiFile) (pl : Bool),
      (s.play mf pl).get_speed = s.get_speed) ∧
    (∀ s : MidiFileSequencer, s.stop.get_speed = s.get_speed) ∧
    (∀ (fuel n m : Nat) (s s' : MidiFileSequencer), render fuel s n m = .ok s' →
      s'.get_speed = s.get_speed) := by
  refine ⟨fun _ => rfl, fun _ _ _ => rfl, fun _ => rfl, ?_⟩
  intro fuel n m s s' h
  unfold render at h
  split at h
  · exact (renderLoop_ok fuel n n s s' h).1
  · cases h

/-- C10 witness: the speed after `play`, `stop` and a 1-frame `render` is
still the construction default 1. -/
theorem spec_c10_speed_frame_witness :
    ((MidiFileSequencer.new ⟨1, 1, []⟩).play ⟨[.other], [0]⟩ true).get_speed =
      (MidiFileSequencer.new ⟨1, 1, []⟩).get_speed :=
  spec_c10_speed_frame.2.1 (MidiFileSequencer.new ⟨1, 1, []⟩) ⟨[.other], [0]⟩ true

end ClaimTheorems

end RustySynth
